import Mathlib

/-!
Verification of the date-interval segmentation engine of the
invoices-generator repository.

The engine lives (duplicated) in
`src/components/interval-date-range-picker.tsx` (`calculateSegments`,
`calculateTotal`, `formatPreviewItem`) and
`src/components/forms/invoice-form.tsx` (`calculateDateSegments`).
Dates are JavaScript `Date` values used at day granularity (the spec fixes
time-of-day as ignored), so we embed a date as a proleptic-Gregorian
calendar day: a `(year, month, day)` triple with the validity invariant,
ordered lexicographically (which we prove agrees with the linear day
number, i.e. with JS timestamp order at day granularity).

The date-fns library functions used by the engine
(`differenceInDays`, `differenceInMonths`, `eachDayOfInterval`,
`eachWeekOfInterval`, `isWeekend`, `startOfWeek`, `startOfMonth`,
`endOfMonth`) are modelled below, faithfully to their library semantics,
including the full-month counting algorithm of `differenceInMonths`.
-/

namespace Invoices

/-- Gregorian leap-year predicate, as a Bool (JS / date-fns semantics). -/
def isLeap (y : Int) : Bool :=
  decide ((y % 4 = 0 ∧ ¬ y % 100 = 0) ∨ y % 400 = 0)

/-- Number of leap years `k` with `1 ≤ k ≤ n` (for `n ≥ 0`). -/
def leapsUpTo (n : Int) : Int :=
  n / 4 - n / 100 + n / 400

/-- Number of days of month `m` (1 = January) of year `y`.
Out-of-range months get the junk value 31; the date invariant excludes them. -/
def daysInMonth (y m : Int) : Int :=
  if m = 2 then (if isLeap y then 29 else 28)
  else if m = 4 ∨ m = 6 ∨ m = 9 ∨ m = 11 then 30
  else 31

/-- Cumulative days of a non-leap year strictly before month `m`
(clamped outside 1..13). -/
def cumBase (m : Int) : Int :=
  if m ≤ 1 then 0
  else if m ≤ 2 then 31
  else if m ≤ 3 then 59
  else if m ≤ 4 then 90
  else if m ≤ 5 then 120
  else if m ≤ 6 then 151
  else if m ≤ 7 then 181
  else if m ≤ 8 then 212
  else if m ≤ 9 then 243
  else if m ≤ 10 then 273
  else if m ≤ 11 then 304
  else if m ≤ 12 then 334
  else 365

/-- Days of year `y` strictly before month `m` (clamped outside 1..13). -/
def cumDays (leap : Bool) (m : Int) : Int :=
  cumBase m + (if leap ∧ 3 ≤ m then 1 else 0)

/-- Raw year-month-day triple. -/
structure Ymd where
  y : Int
  m : Int
  d : Int
deriving DecidableEq, Repr

/-- Validity of a calendar triple. -/
def DateValid (x : Ymd) : Prop :=
  1 ≤ x.m ∧ x.m ≤ 12 ∧ 1 ≤ x.d ∧ x.d ≤ daysInMonth x.y x.m

instance : DecidablePred DateValid := fun x => by
  unfold DateValid; infer_instance

/-- A calendar date: a valid year-month-day triple (day granularity,
matching the spec precondition that time-of-day is ignored). -/
def Date := { x : Ymd // DateValid x }

instance : DecidableEq Date := Subtype.instDecidableEq

/-- Year of a date. -/
def Date.y (z : Date) : Int := z.val.y
/-- Month of a date (1..12). -/
def Date.m (z : Date) : Int := z.val.m
/-- Day-of-month of a date. -/
def Date.d (z : Date) : Int := z.val.d

/-- Constructor for concrete dates; validity is discharged by `decide`. -/
def mkDate (y m d : Int) (h : DateValid ⟨y, m, d⟩ := by decide) : Date :=
  ⟨⟨y, m, d⟩, h⟩

/-- Lexicographic strict order on dates (equals JS `Date` `<` at day
granularity; see `toDays_lt_iff`). -/
def dlt (a b : Date) : Prop :=
  a.y < b.y ∨ (a.y = b.y ∧ (a.m < b.m ∨ (a.m = b.m ∧ a.d < b.d)))

/-- Lexicographic order on dates (non-strict). -/
def dle (a b : Date) : Prop :=
  a.y < b.y ∨ (a.y = b.y ∧ (a.m < b.m ∨ (a.m = b.m ∧ a.d ≤ b.d)))

instance (a b : Date) : Decidable (dlt a b) := by unfold dlt; infer_instance
instance (a b : Date) : Decidable (dle a b) := by unfold dle; infer_instance

/-- Linear day number of a calendar triple: days since 0001-01-01. -/
def T (y m d : Int) : Int :=
  365 * (y - 1) + leapsUpTo (y - 1) + cumDays (isLeap y) m + (d - 1)

/-- Linear day number of a date (days since 0001-01-01, which by the
400-year cycle has the same weekday as 2001-01-01, a Monday). -/
def toDays (z : Date) : Int := T z.y z.m z.d

/-- JS `getDay()`: day of week, 0 = Sunday .. 6 = Saturday. -/
def dow (z : Date) : Int := (toDays z + 1) % 7

theorem date_ext {a b : Date} (hy : a.y = b.y) (hm : a.m = b.m)
    (hd : a.d = b.d) : a = b := by
  apply Subtype.ext
  cases a with
  | mk av ah =>
    cases b with
    | mk bv bh =>
      cases av; cases bv
      simp only [Date.y, Date.m, Date.d] at hy hm hd
      simp_all

theorem dle_refl (a : Date) : dle a a := by unfold dle; omega

theorem dlt_of_dle_ne {a b : Date} (h : dle a b) (hne : a ≠ b) : dlt a b := by
  unfold dle at h
  unfold dlt
  by_cases hy : a.y = b.y
  · by_cases hm : a.m = b.m
    · have hd : a.d ≠ b.d := by
        intro hd; exact hne (date_ext hy hm hd)
      omega
    · omega
  · omega

theorem dle_total (a b : Date) : dle a b ∨ dle b a := by
  unfold dle; omega

theorem dlt_irrefl (a : Date) : ¬ dlt a a := by unfold dlt; omega

theorem not_dle_iff {a b : Date} : ¬ dle a b ↔ dlt b a := by
  unfold dle dlt; omega

theorem dprop (z : Date) :
    1 ≤ z.m ∧ z.m ≤ 12 ∧ 1 ≤ z.d ∧ z.d ≤ daysInMonth z.y z.m :=
  z.property

theorem daysInMonth_pos (y m : Int) : 1 ≤ daysInMonth y m := by
  unfold daysInMonth
  split_ifs <;> omega

theorem daysInMonth_le (y m : Int) : daysInMonth y m ≤ 31 := by
  unfold daysInMonth
  split_ifs <;> omega

theorem daysInMonth_twelve (y : Int) : daysInMonth y 12 = 31 := by
  unfold daysInMonth
  norm_num

/-- Build a date from components and componentwise validity proofs. -/
def mkD (y m d : Int) (h1 : 1 ≤ m) (h2 : m ≤ 12) (h3 : 1 ≤ d)
    (h4 : d ≤ daysInMonth y m) : Date :=
  ⟨⟨y, m, d⟩, ⟨h1, h2, h3, h4⟩⟩

@[simp] theorem mkD_y (y m d : Int) (h1 h2 h3 h4) :
    (mkD y m d h1 h2 h3 h4).y = y := rfl
@[simp] theorem mkD_m (y m d : Int) (h1 h2 h3 h4) :
    (mkD y m d h1 h2 h3 h4).m = m := rfl
@[simp] theorem mkD_d (y m d : Int) (h1 h2 h3 h4) :
    (mkD y m d h1 h2 h3 h4).d = d := rfl
@[simp] theorem toDays_mkD (y m d : Int) (h1 h2 h3 h4) :
    toDays (mkD y m d h1 h2 h3 h4) = T y m d := rfl

@[simp] theorem mkDate_y (y m d : Int) (h) : (mkDate y m d h).y = y := rfl
@[simp] theorem mkDate_m (y m d : Int) (h) : (mkDate y m d h).m = m := rfl
@[simp] theorem mkDate_d (y m d : Int) (h) : (mkDate y m d h).d = d := rfl

theorem toDays_def (z : Date) : toDays z = T z.y z.m z.d := rfl

/-- Successor calendar day (JS date + 1 day, normalized). -/
def succDay (z : Date) : Date :=
  if h : z.d < daysInMonth z.y z.m then
    mkD z.y z.m (z.d + 1) (dprop z).1 (dprop z).2.1
      (by have := (dprop z).2.2.1; omega) (by omega)
  else if h2 : z.m < 12 then
    mkD z.y (z.m + 1) 1 (by have := (dprop z).1; omega) (by omega)
      le_rfl (daysInMonth_pos _ _)
  else
    mkD (z.y + 1) 1 1 le_rfl (by omega) le_rfl (daysInMonth_pos _ _)

/-- Predecessor calendar day (JS date - 1 day, normalized). -/
def predDay (z : Date) : Date :=
  if h : 1 < z.d then
    mkD z.y z.m (z.d - 1) (dprop z).1 (dprop z).2.1 (by omega)
      (by have := (dprop z).2.2.2; omega)
  else if h2 : 1 < z.m then
    mkD z.y (z.m - 1) (daysInMonth z.y (z.m - 1))
      (by omega) (by have := (dprop z).2.1; omega)
      (daysInMonth_pos _ _) le_rfl
  else
    mkD (z.y - 1) 12 31 (by omega) le_rfl (by omega)
      (by rw [daysInMonth_twelve])

/-- Add `n` days to a date (iterated successor). -/
def addDays (z : Date) : Nat → Date
  | 0 => z
  | n + 1 => succDay (addDays z n)

/-- Subtract `n` days from a date (iterated predecessor). -/
def subDays (z : Date) : Nat → Date
  | 0 => z
  | n + 1 => predDay (subDays z n)

theorem leaps_step (y : Int) :
    leapsUpTo y - leapsUpTo (y - 1) = (if isLeap y then 1 else 0) := by
  unfold leapsUpTo isLeap
  split_ifs with h
  · simp only [decide_eq_true_eq] at h
    omega
  · simp only [decide_eq_true_eq, not_or, not_and_or, not_not] at h
    omega

theorem cum_one (b : Bool) : cumDays b 1 = 0 := by
  cases b <;> rfl

theorem cum_twelve (b : Bool) :
    cumDays b 12 = 334 + (if b then 1 else 0) := by
  cases b <;> rfl

theorem cum_add_dim (y m : Int) (h1 : 1 ≤ m) (h2 : m ≤ 12) :
    cumDays (isLeap y) m + daysInMonth y m = cumDays (isLeap y) (m + 1) := by
  cases hl : isLeap y <;> interval_cases m <;>
    simp [cumDays, cumBase, daysInMonth, hl]

theorem cum_nonneg (y : Int) {m : Int} (h1 : 1 ≤ m) (h2 : m ≤ 13) :
    0 ≤ cumDays (isLeap y) m := by
  cases hl : isLeap y <;> interval_cases m <;> decide

theorem cum_mono (y : Int) {m n : Int} (h1 : 1 ≤ m) (h : m ≤ n)
    (h2 : n ≤ 13) : cumDays (isLeap y) m ≤ cumDays (isLeap y) n := by
  have hn1 : 1 ≤ n := le_trans h1 h
  cases hl : isLeap y <;> interval_cases n <;> interval_cases m <;> decide

theorem T_year_step (y : Int) : T (y + 1) 1 1 = T y 12 31 + 1 := by
  have hstep := leaps_step y
  unfold T
  rw [cum_one, cum_twelve]
  have hy : y + 1 - 1 = y := by omega
  rw [hy]
  omega

theorem T_le_year_last (y m d : Int) (h1 : 1 ≤ m) (h2 : m ≤ 12)
    (h3 : 1 ≤ d) (h4 : d ≤ daysInMonth y m) : T y m d ≤ T y 12 31 := by
  unfold T
  rw [cum_twelve]
  by_cases hm12 : m = 12
  · subst hm12
    rw [cum_twelve] at *
    have := daysInMonth_twelve y
    omega
  · have hc := cum_add_dim y m h1 h2
    have hmono := cum_mono y (show (1 : Int) ≤ m + 1 by omega)
      (show m + 1 ≤ 12 by omega) (by omega)
    rw [cum_twelve] at hmono
    omega

theorem T_first_le (y m d : Int) (h1 : 1 ≤ m) (h2 : m ≤ 12) (h3 : 1 ≤ d) :
    T y 1 1 ≤ T y m d := by
  unfold T
  rw [cum_one]
  have := cum_mono y le_rfl (show (1 : Int) ≤ m by omega) (by omega)
  rw [cum_one] at this
  omega

theorem T_first_mono {y1 y2 : Int} (h : y1 ≤ y2) : T y1 1 1 ≤ T y2 1 1 := by
  refine @Int.le_induction (fun n => T y1 1 1 ≤ T n 1 1) y1 ?_ ?_ y2 h
  · exact le_rfl
  · intro n hn ih
    have hy1 : T n 1 1 ≤ T n 12 31 :=
      T_le_year_last n 1 1 le_rfl (by omega) le_rfl (daysInMonth_pos _ _)
    have hy2 := T_year_step n
    omega

theorem toDays_succ (z : Date) : toDays (succDay z) = toDays z + 1 := by
  obtain ⟨h1, h2, h3, h4⟩ := dprop z
  unfold succDay
  split_ifs with hd hm
  · simp only [toDays_def, mkD_y, mkD_m, mkD_d, T]
    omega
  · have hc := cum_add_dim z.y z.m h1 h2
    simp only [toDays_def, mkD_y, mkD_m, mkD_d, T]
    omega
  · have hm12 : z.m = 12 := by omega
    have h31 : z.d = 31 := by
      have := daysInMonth_twelve z.y
      rw [hm12] at hd h4
      omega
    simp only [toDays_def, mkD_y, mkD_m, mkD_d]
    rw [hm12, h31, T_year_step]

theorem succ_pred (z : Date) : succDay (predDay z) = z := by
  obtain ⟨h1, h2, h3, h4⟩ := dprop z
  unfold predDay
  split_ifs with hd hm
  · unfold succDay
    rw [dif_pos (by simp only [mkD_y, mkD_m, mkD_d]; omega)]
    apply date_ext <;> simp only [mkD_y, mkD_m, mkD_d] <;> omega
  · unfold succDay
    rw [dif_neg (by simp only [mkD_y, mkD_m, mkD_d]; omega)]
    rw [dif_pos (by simp only [mkD_y, mkD_m, mkD_d]; omega)]
    apply date_ext <;> simp only [mkD_y, mkD_m, mkD_d] <;> omega
  · unfold succDay
    rw [dif_neg (by
      simp only [mkD_y, mkD_m, mkD_d]
      rw [daysInMonth_twelve]; omega)]
    rw [dif_neg (by simp only [mkD_y, mkD_m, mkD_d]; omega)]
    apply date_ext <;> simp only [mkD_y, mkD_m, mkD_d] <;> omega

theorem toDays_pred (z : Date) : toDays (predDay z) = toDays z - 1 := by
  have := toDays_succ (predDay z)
  rw [succ_pred] at this
  omega

theorem toDays_addDays (z : Date) (n : Nat) :
    toDays (addDays z n) = toDays z + n := by
  induction n with
  | zero => simp [addDays]
  | succ k ih =>
    simp only [addDays, toDays_succ, ih]
    push_cast
    ring

theorem toDays_subDays (z : Date) (n : Nat) :
    toDays (subDays z n) = toDays z - n := by
  induction n with
  | zero => simp [subDays]
  | succ k ih =>
    simp only [subDays, toDays_pred, ih]
    push_cast
    ring

theorem toDays_lt_of_dlt {a b : Date} (h : dlt a b) :
    toDays a < toDays b := by
  obtain ⟨a1, a2, a3, a4⟩ := dprop a
  obtain ⟨b1, b2, b3, b4⟩ := dprop b
  unfold dlt at h
  rcases h with hy | ⟨hy, hm | ⟨hm, hd⟩⟩
  · -- a.y < b.y
    have s1 : T a.y a.m a.d < T (a.y + 1) 1 1 := by
      have := T_le_year_last a.y a.m a.d a1 a2 a3 a4
      have := T_year_step a.y
      omega
    have s2 : T (a.y + 1) 1 1 ≤ T b.y 1 1 := T_first_mono (by omega)
    have s3 : T b.y 1 1 ≤ T b.y b.m b.d := T_first_le b.y b.m b.d b1 b2 b3
    simp only [toDays_def]
    omega
  · -- same year, a.m < b.m
    have hc := cum_add_dim a.y a.m a1 a2
    have hmono := cum_mono a.y (show (1 : Int) ≤ a.m + 1 by omega)
      (show a.m + 1 ≤ b.m by omega) (by omega)
    simp only [toDays_def, T]
    rw [hy] at hc hmono a4 ⊢
    omega
  · -- same year and month
    simp only [toDays_def, T]
    rw [hy, hm]
    omega

theorem not_dlt_iff {a b : Date} : ¬ dlt a b ↔ dle b a := by
  unfold dle dlt; omega

theorem dle_iff_eq_or_dlt {a b : Date} : dle a b ↔ a = b ∨ dlt a b := by
  constructor
  · intro h
    by_cases hab : a = b
    · exact Or.inl hab
    · exact Or.inr (dlt_of_dle_ne h hab)
  · intro h
    rcases h with h | h
    · subst h; exact dle_refl a
    · unfold dle; unfold dlt at h; omega

theorem toDays_le_of_dle {a b : Date} (h : dle a b) :
    toDays a ≤ toDays b := by
  rcases dle_iff_eq_or_dlt.mp h with h | h
  · subst h; exact le_rfl
  · exact le_of_lt (toDays_lt_of_dlt h)

theorem toDays_lt_iff {a b : Date} : dlt a b ↔ toDays a < toDays b := by
  constructor
  · exact toDays_lt_of_dlt
  · intro h
    by_contra hc
    have := toDays_le_of_dle (not_dlt_iff.mp hc)
    omega

theorem toDays_le_iff {a b : Date} : dle a b ↔ toDays a ≤ toDays b := by
  constructor
  · exact toDays_le_of_dle
  · intro h
    by_contra hc
    have := toDays_lt_of_dlt (not_dle_iff.mp hc)
    omega

theorem toDays_inj {a b : Date} (h : toDays a = toDays b) : a = b := by
  by_contra hab
  rcases dle_total a b with hle | hle
  · have := toDays_lt_of_dlt (dlt_of_dle_ne hle hab)
    omega
  · have := toDays_lt_of_dlt (dlt_of_dle_ne hle (fun e => hab e.symm))
    omega

/-! ### Models of the date-fns library functions used by the engine -/

/-- Model of date-fns `differenceInDays` at day granularity (equal
times-of-day): the difference of linear day numbers. -/
def differenceInDays (a b : Date) : Int := toDays a - toDays b

/-- Model of date-fns `eachDayOfInterval`: every calendar day from
`s` to `e` inclusive (the engine only calls it with `s ≤ e`). -/
def eachDayOfInterval (s e : Date) : List Date :=
  if dle s e then
    (List.range (toDays e - toDays s + 1).toNat).map (addDays s)
  else []

/-- Model of date-fns `isWeekend`: `getDay()` is 0 (Sunday) or 6
(Saturday). -/
def isWeekendB (z : Date) : Bool := decide (dow z = 0 ∨ dow z = 6)

/-- Model of date-fns `startOfWeek` with `weekStartsOn = 1`: go back
`(getDay() + 6) % 7` days to the preceding (or current) Monday. -/
def startOfWeekMon (z : Date) : Date :=
  subDays z ((dow z + 6) % 7).toNat

/-- Model of date-fns `eachWeekOfInterval` with `weekStartsOn = 1`:
the Mondays from `startOfWeek s` to `startOfWeek e` stepping 7 days
(the engine only calls it with `s ≤ e`). -/
def eachWeekOfInterval (s e : Date) : List Date :=
  if dle s e then
    (List.range
        ((toDays (startOfWeekMon e) - toDays (startOfWeekMon s)) / 7 + 1).toNat).map
      (fun k => addDays (startOfWeekMon s) (7 * k))
  else []

/-- Model of date-fns `startOfMonth`. -/
def startOfMonth (z : Date) : Date :=
  mkD z.y z.m 1 (dprop z).1 (dprop z).2.1 le_rfl (daysInMonth_pos _ _)

/-- Model of date-fns `endOfMonth`. -/
def endOfMonth (z : Date) : Date :=
  mkD z.y z.m (daysInMonth z.y z.m) (dprop z).1 (dprop z).2.1
    (daysInMonth_pos _ _) le_rfl

/-- Model of the JS step `currentMonth.setMonth(currentMonth.getMonth() + 1)`
performed by the engine on a first-of-month date. -/
def nextMonthFirst (z : Date) : Date :=
  if h : z.m < 12 then
    mkD z.y (z.m + 1) 1 (by have := (dprop z).1; omega) (by omega)
      le_rfl (daysInMonth_pos _ _)
  else
    mkD (z.y + 1) 1 1 le_rfl (by omega) le_rfl (daysInMonth_pos _ _)

/-- Iterate `nextMonthFirst` (the engine's month-cursor walk). -/
def advMonths : Nat → Date → Date
  | 0, z => z
  | n + 1, z => nextMonthFirst (advMonths n z)

/-- Model of date-fns `compareAsc`: sign of the timestamp comparison. -/
def compareAscD (a b : Date) : Int :=
  if dlt a b then -1 else if dlt b a then 1 else 0

/-- Model of date-fns `isLastDayOfMonth`. -/
def isLastDayOfMonth (z : Date) : Prop := z.d = daysInMonth z.y z.m

instance (z : Date) : Decidable (isLastDayOfMonth z) := by
  unfold isLastDayOfMonth; infer_instance

/-- Model of JS `setDate(n)` (for `n ≥ 1`): first of the month plus
`n - 1` days, rolling over month boundaries like JS `Date`. -/
def jsSetDate (z : Date) (n : Int) : Date :=
  addDays (startOfMonth z) (n - 1).toNat

/-- Model of JS `setMonth(x)` for a 0-based month number `x` of any sign:
JS normalizes the month into the year (floor division) and then rolls an
overflowing day-of-month forward, exactly as `firstOfMonth + (d-1) days`. -/
def jsSetMonth (z : Date) (x : Int) : Date :=
  addDays
    (mkD (z.y + x / 12) (x % 12 + 1) 1 (by omega) (by omega)
      le_rfl (daysInMonth_pos _ _))
    (z.d - 1).toNat

/-- The February adjustment step of date-fns `differenceInMonths`:
`if (dateLeft.getMonth() === 1 && dateLeft.getDate() > 27) dateLeft.setDate(30)`. -/
def febAdjust (z : Date) : Date :=
  if z.m = 2 ∧ z.d > 27 then jsSetDate z 30 else z

/-- The `difference` of date-fns `differenceInMonths`: absolute calendar
month difference. -/
def dimDiff (dl dr : Date) : Int := |12 * (dl.y - dr.y) + (dl.m - dr.m)|

/-- The mutated working date of date-fns `differenceInMonths` after the
February adjustment and the `setMonth` step. -/
def dimWork (dl dr : Date) : Date :=
  jsSetMonth (febAdjust dl)
    ((febAdjust dl).m - 1 - compareAscD dl dr * dimDiff dl dr)

/-- The `isLastMonthNotFull` flag of date-fns `differenceInMonths`,
including its last-day-of-month override. -/
def dimNotFull (dl dr : Date) : Prop :=
  if isLastDayOfMonth dl ∧ dimDiff dl dr = 1 ∧ compareAscD dl dr = 1 then
    False
  else compareAscD (dimWork dl dr) dr = -(compareAscD dl dr)

instance (dl dr : Date) : Decidable (dimNotFull dl dr) := by
  unfold dimNotFull
  split_ifs <;> infer_instance

/-- Model of date-fns `differenceInMonths`: the number of full months
between the dates (signed). -/
def differenceInMonths (dl dr : Date) : Int :=
  if dimDiff dl dr < 1 then 0
  else
    compareAscD dl dr *
      (dimDiff dl dr - (if dimNotFull dl dr then 1 else 0))

/-! ### The segmentation engine (transcribed from the repository) -/

/-- The closed interval-type enumeration (`interval-selector.tsx`). -/
inductive IntervalType where
  | day
  | week
  | weekend
  | month
deriving DecidableEq, Repr

/-- The interval name as interpolated into user-facing strings. -/
def intervalName : IntervalType → String
  | .day => "day"
  | .week => "week"
  | .weekend => "weekend"
  | .month => "month"

/-- A segment `{ start, end }` produced by the engine. -/
structure Seg where
  start : Date
  stop : Date
deriving DecidableEq

/-- The `SegmentationResult` shape produced by the standalone picker:
segment count, segments (`none` models JS `null`), optional error text. -/
structure SegResult where
  count : Int
  segments : Option (List Seg)
  error : Option String
deriving DecidableEq

/-- The month-loop of the engine: for `i` in `0..count-1`, segment `i`
starts at `start` (if `i = 0`) else at the start of the cursor month, and
stops at `end` (if `i = count-1`) else at the end of the cursor month,
the cursor `currentMonth` advancing one month per iteration from
`startOfMonth start`. -/
def monthSegments (s e : Date) (count : Nat) : List Seg :=
  (List.range count).map (fun i =>
    { start := if i = 0 then s else startOfMonth (advMonths i (startOfMonth s)),
      stop :=
        if i = count - 1 then e
        else endOfMonth (advMonths i (startOfMonth s)) })

/-- Transcription of `calculateSegments` from
`src/components/interval-date-range-picker.tsx` (lines 81-189): the guard
`end < start`, the four-way interval switch, and the final `count === 0`
validation that sets the "No valid ..." error. The `try/catch` wrapper is
not modelled: every modelled operation is total, so the catch branch is
unreachable. -/
def calculateSegments (s e : Date) (interval : IntervalType) : SegResult :=
  if dlt e s then
    { count := 0, segments := none,
      error := some "End date cannot be before start date" }
  else
    let pair : List Seg × Int :=
      match interval with
      | .day =>
        ((eachDayOfInterval s e).map (fun z => { start := z, stop := z }),
          differenceInDays e s + 1)
      | .week =>
        let segs := (eachWeekOfInterval s e).map (fun w =>
          { start := w,
            stop := if dlt e (addDays w 4) then e else addDays w 4 })
        (segs, segs.length)
      | .weekend =>
        let segs := ((eachDayOfInterval s e).filter isWeekendB).map
          (fun z => { start := z, stop := z })
        (segs, segs.length)
      | .month =>
        let c := differenceInMonths e s + 1
        if c ≤ 0 then ([{ start := s, stop := e }], 1)
        else (monthSegments s e c.toNat, c)
    { count := pair.2, segments := some pair.1,
      error :=
        if pair.2 = 0 then
          some ("No valid " ++ intervalName interval ++
            " segments found in the selected range")
        else none }

/-- Transcription of `calculateDateSegments` from
`src/components/forms/invoice-form.tsx` (lines 63-156): same guard and
switch, but returning only `{ segments, segmentCount }` (with `segments
= null` on an invalid range) and no error string. -/
def calculateDateSegments (s e : Date) (interval : IntervalType) :
    Option (List Seg) × Int :=
  if dlt e s then (none, 0)
  else
    match interval with
    | .day =>
      (some ((eachDayOfInterval s e).map (fun z => { start := z, stop := z })),
        differenceInDays e s + 1)
    | .week =>
      let segs := (eachWeekOfInterval s e).map (fun w =>
        { start := w,
          stop := if dlt e (addDays w 4) then e else addDays w 4 })
      (some segs, segs.length)
    | .weekend =>
      let segs := ((eachDayOfInterval s e).filter isWeekendB).map
        (fun z => { start := z, stop := z })
      (some segs, segs.length)
    | .month =>
      let c := differenceInMonths e s + 1
      if c ≤ 0 then (some [{ start := s, stop := e }], 1)
      else (some (monthSegments s e c.toNat), c)

/-! ### Properties of the modelled date-fns operations -/

theorem eachDay_length {s e : Date} (h : dle s e) :
    (eachDayOfInterval s e).length = (toDays e - toDays s + 1).toNat := by
  unfold eachDayOfInterval
  rw [if_pos h]
  simp

theorem eachDay_mem {s e : Date} (h : dle s e) (z : Date) :
    z ∈ eachDayOfInterval s e ↔ dle s z ∧ dle z e := by
  have hse := toDays_le_of_dle h
  unfold eachDayOfInterval
  rw [if_pos h]
  simp only [List.mem_map, List.mem_range]
  constructor
  · rintro ⟨k, hk, rfl⟩
    have hadd := toDays_addDays s k
    constructor
    · rw [toDays_le_iff]; omega
    · rw [toDays_le_iff]; omega
  · rintro ⟨h1, h2⟩
    rw [toDays_le_iff] at h1 h2
    refine ⟨(toDays z - toDays s).toNat, by omega, ?_⟩
    apply toDays_inj
    rw [toDays_addDays]
    omega

theorem eachDay_pairwise (s e : Date) :
    List.Pairwise dlt (eachDayOfInterval s e) := by
  unfold eachDayOfInterval
  split_ifs with h
  · refine List.Pairwise.map _ ?_ (List.pairwise_lt_range _)
    intro a b hab
    rw [toDays_lt_iff, toDays_addDays, toDays_addDays]
    omega
  · exact List.Pairwise.nil

theorem startOfWeekMon_toDays (z : Date) :
    toDays (startOfWeekMon z) = toDays z - toDays z % 7 := by
  unfold startOfWeekMon dow
  rw [toDays_subDays]
  omega

theorem eachWeek_mem {s e : Date} (h : dle s e) (w : Date) :
    w ∈ eachWeekOfInterval s e ↔
      toDays w % 7 = 0 ∧ toDays w ≤ toDays e ∧ toDays s ≤ toDays w + 6 := by
  have hse := toDays_le_of_dle h
  have h0 := startOfWeekMon_toDays s
  have h1 := startOfWeekMon_toDays e
  unfold eachWeekOfInterval
  rw [if_pos h]
  simp only [List.mem_map, List.mem_range]
  constructor
  · rintro ⟨k, hk, rfl⟩
    have hadd := toDays_addDays (startOfWeekMon s) (7 * k)
    have hcast : ((7 * k : Nat) : Int) = 7 * (k : Int) := by push_cast; ring
    rw [hcast] at hadd
    omega
  · rintro ⟨hw0, hw1, hw2⟩
    refine ⟨((toDays w - toDays (startOfWeekMon s)) / 7).toNat, by omega, ?_⟩
    apply toDays_inj
    rw [toDays_addDays]
    have hcast : ((7 * ((toDays w - toDays (startOfWeekMon s)) / 7).toNat : Nat) : Int)
        = 7 * (((toDays w - toDays (startOfWeekMon s)) / 7).toNat : Int) := by
      push_cast; ring
    rw [hcast]
    omega

theorem eachWeek_pairwise (s e : Date) :
    List.Pairwise dlt (eachWeekOfInterval s e) := by
  unfold eachWeekOfInterval
  split_ifs with h
  · refine List.Pairwise.map _ ?_ (List.pairwise_lt_range _)
    intro a b hab
    rw [toDays_lt_iff, toDays_addDays, toDays_addDays]
    have c1 : ((7 * a : Nat) : Int) = 7 * (a : Int) := by push_cast; ring
    have c2 : ((7 * b : Nat) : Int) = 7 * (b : Int) := by push_cast; ring
    omega
  · exact List.Pairwise.nil

theorem eachWeek_length {s e : Date} (h : dle s e) :
    (eachWeekOfInterval s e).length =
      ((toDays (startOfWeekMon e) - toDays (startOfWeekMon s)) / 7 + 1).toNat := by
  unfold eachWeekOfInterval
  rw [if_pos h]
  simp

theorem eachWeek_length_pos {s e : Date} (h : dle s e) :
    0 < (eachWeekOfInterval s e).length := by
  have hse := toDays_le_of_dle h
  have h0 := startOfWeekMon_toDays s
  have h1 := startOfWeekMon_toDays e
  rw [eachWeek_length h]
  omega

@[simp] theorem startOfMonth_y (z : Date) : (startOfMonth z).y = z.y := rfl
@[simp] theorem startOfMonth_m (z : Date) : (startOfMonth z).m = z.m := rfl
@[simp] theorem startOfMonth_d (z : Date) : (startOfMonth z).d = 1 := rfl
@[simp] theorem endOfMonth_y (z : Date) : (endOfMonth z).y = z.y := rfl
@[simp] theorem endOfMonth_m (z : Date) : (endOfMonth z).m = z.m := rfl
@[simp] theorem endOfMonth_d (z : Date) :
    (endOfMonth z).d = daysInMonth z.y z.m := rfl

theorem dle_startOfMonth (z : Date) : dle (startOfMonth z) z :=
  Or.inr ⟨rfl, Or.inr ⟨rfl, (dprop z).2.2.1⟩⟩

theorem dle_endOfMonth (z : Date) : dle z (endOfMonth z) :=
  Or.inr ⟨rfl, Or.inr ⟨rfl, (dprop z).2.2.2⟩⟩

theorem lt_of_idx_lt {u v : Date}
    (h : 12 * u.y + u.m < 12 * v.y + v.m) : dlt u v := by
  have hu := dprop u
  have hv := dprop v
  unfold dlt
  omega

theorem idx_mono {a b : Date} (h : dle a b) :
    12 * a.y + a.m ≤ 12 * b.y + b.m := by
  have ha := dprop a
  have hb := dprop b
  unfold dle at h
  omega

theorem first_le_of_idx_le {w v : Date} (hd : w.d = 1)
    (h : 12 * w.y + w.m ≤ 12 * v.y + v.m) : dle w v := by
  have hw := dprop w
  have hv := dprop v
  unfold dle
  omega

theorem nextMonthFirst_spec (z : Date) :
    12 * (nextMonthFirst z).y + (nextMonthFirst z).m = 12 * z.y + z.m + 1 ∧
      (nextMonthFirst z).d = 1 := by
  have h := dprop z
  unfold nextMonthFirst
  split_ifs with hlt <;> refine ⟨?_, rfl⟩ <;> simp only [mkD_y, mkD_m] <;>
    omega

theorem advMonths_spec (X : Date) (hX : X.d = 1) (i : Nat) :
    12 * (advMonths i X).y + (advMonths i X).m = 12 * X.y + X.m + i ∧
      (advMonths i X).d = 1 := by
  induction i with
  | zero => simpa [advMonths] using hX
  | succ k ih =>
    have hn := nextMonthFirst_spec (advMonths k X)
    simp only [advMonths]
    push_cast
    omega

theorem dim_le_cal {dr dl : Date} (h : dle dr dl) :
    differenceInMonths dl dr ≤ 12 * (dl.y - dr.y) + (dl.m - dr.m) := by
  have hcal0 : 0 ≤ 12 * (dl.y - dr.y) + (dl.m - dr.m) := by
    have := idx_mono h
    omega
  have hnlt : ¬ dlt dl dr := not_dlt_iff.mpr h
  unfold differenceInMonths dimDiff compareAscD
  simp only [abs_of_nonneg hcal0, if_neg hnlt]
  split_ifs <;> omega

/-- The month segments of the engine loop all lie between `s` and `e`. -/
theorem monthSegments_mem {s e : Date} (c : Int) (hc1 : 1 ≤ c)
    (hcal : c - 1 ≤ 12 * (e.y - s.y) + (e.m - s.m)) :
    ∀ g ∈ monthSegments s e c.toNat, dle s g.start ∧ dle g.stop e := by
  intro g hg
  unfold monthSegments at hg
  simp only [List.mem_map, List.mem_range] at hg
  obtain ⟨i, hi, rfl⟩ := hg
  have hadv := advMonths_spec (startOfMonth s) rfl i
  constructor
  · -- start bound
    dsimp only
    split_ifs with h0
    · exact dle_refl s
    · have hidx : 12 * s.y + s.m <
          12 * (startOfMonth (advMonths i (startOfMonth s))).y +
            (startOfMonth (advMonths i (startOfMonth s))).m := by
        simp only [startOfMonth_y, startOfMonth_m] at hadv ⊢
        omega
      exact dle_iff_eq_or_dlt.mpr (Or.inr (lt_of_idx_lt hidx))
  · -- stop bound
    dsimp only
    split_ifs with h1
    · exact dle_refl e
    · have hin : (i : Int) < c - 1 := by omega
      have hidx : 12 * (endOfMonth (advMonths i (startOfMonth s))).y +
          (endOfMonth (advMonths i (startOfMonth s))).m <
          12 * e.y + e.m := by
        simp only [endOfMonth_y, endOfMonth_m, startOfMonth_y,
          startOfMonth_m] at hadv ⊢
        omega
      exact dle_iff_eq_or_dlt.mpr (Or.inr (lt_of_idx_lt hidx))

/-- The month segments of the engine loop are chronologically ordered and
non-overlapping. -/
theorem monthSegments_pairwise (s e : Date) (n : Nat) :
    List.Pairwise (fun a b => dlt a.stop b.start) (monthSegments s e n) := by
  unfold monthSegments
  rw [List.pairwise_iff_getElem]
  intro i j hi hj hij
  simp only [List.length_map, List.length_range] at hi hj
  simp only [List.getElem_map, List.getElem_range]
  have hadvi := advMonths_spec (startOfMonth s) rfl i
  have hadvj := advMonths_spec (startOfMonth s) rfl j
  have hine : ¬ (i = n - 1) := by omega
  have hjne : ¬ (j = 0) := by omega
  rw [if_neg hine, if_neg hjne]
  apply lt_of_idx_lt
  simp only [endOfMonth_y, endOfMonth_m, startOfMonth_y, startOfMonth_m]
    at hadvi hadvj ⊢
  omega

/-! ### Claim theorems -/

theorem not_dlt_of_dle {s e : Date} (h : dle s e) : ¬ dlt e s :=
  not_dlt_iff.mpr h

/-- C3: for every pair of dates with `end < start` and every interval type,
the picker engine returns count 0, no segments, and the error message
"End date cannot be before start date" (and the form copy returns the same
empty shape), performing no partial computation; in particular for
start = 2024-05-10, end = 2024-05-01. -/
theorem C3_invalid_range :
    (∀ (s e : Date) (i : IntervalType), dlt e s →
      calculateSegments s e i =
        { count := 0, segments := none,
          error := some "End date cannot be before start date" } ∧
      calculateDateSegments s e i = (none, 0)) ∧
    (∀ i : IntervalType,
      calculateSegments (mkDate 2024 5 10) (mkDate 2024 5 1) i =
        { count := 0, segments := none,
          error := some "End date cannot be before start date" } ∧
      calculateDateSegments (mkDate 2024 5 10) (mkDate 2024 5 1) i =
        (none, 0)) := by
  have key : ∀ (s e : Date) (i : IntervalType), dlt e s →
      calculateSegments s e i =
        { count := 0, segments := none,
          error := some "End date cannot be before start date" } ∧
      calculateDateSegments s e i = (none, 0) := by
    intro s e i h
    constructor
    · unfold calculateSegments
      rw [if_pos h]
    · unfold calculateDateSegments
      rw [if_pos h]
  exact ⟨key, fun i => key _ _ i (by decide)⟩

/-- Witness for C3 at the concrete invalid range of the spec. -/
theorem C3_invalid_range_witness :
    calculateSegments (mkDate 2024 5 10) (mkDate 2024 5 1) .month =
      { count := 0, segments := none,
        error := some "End date cannot be before start date" } :=
  (C3_invalid_range.1 (mkDate 2024 5 10) (mkDate 2024 5 1) .month
    (by decide)).1

/-- C5: for every valid range, the `day` interval yields one single-day
segment per calendar day from start to end inclusive (membership,
ordering, degenerate segments) with `count = daysBetween + 1`; and the
concrete example 2024-03-01 .. 2024-03-05 yields count 5 and five
single-day segments. -/
theorem C5_day :
    (∀ (s e : Date), dle s e →
      (calculateSegments s e .day).count = differenceInDays e s + 1 ∧
      (∀ g ∈ (calculateSegments s e .day).segments.getD [], g.start = g.stop) ∧
      (∀ z : Date,
        Seg.mk z z ∈ (calculateSegments s e .day).segments.getD [] ↔
          dle s z ∧ dle z e) ∧
      ((calculateSegments s e .day).segments.getD []).length =
        (differenceInDays e s + 1).toNat ∧
      List.Pairwise (fun a b => dlt a.start b.start)
        ((calculateSegments s e .day).segments.getD [])) ∧
    ((calculateSegments (mkDate 2024 3 1) (mkDate 2024 3 5) .day).count = 5 ∧
      (calculateSegments (mkDate 2024 3 1) (mkDate 2024 3 5) .day).segments =
        some ((List.range 5).map (fun k =>
          Seg.mk (addDays (mkDate 2024 3 1) k) (addDays (mkDate 2024 3 1) k)))) := by
  constructor
  · intro s e h
    have h' : ¬ dlt e s := not_dlt_of_dle h
    have hseg : calculateSegments s e .day =
        { count := differenceInDays e s + 1,
          segments :=
            some ((eachDayOfInterval s e).map (fun z => Seg.mk z z)),
          error :=
            if differenceInDays e s + 1 = 0 then
              some ("No valid " ++ intervalName .day ++
                " segments found in the selected range")
            else none } := by
      unfold calculateSegments
      rw [if_neg h']
    rw [hseg]
    simp only [Option.getD_some]
    refine ⟨by trivial, ?_, ?_, ?_, ?_⟩
    · intro g hg
      simp only [List.mem_map] at hg
      obtain ⟨z, _, rfl⟩ := hg
      rfl
    · intro z
      simp only [List.mem_map]
      constructor
      · rintro ⟨w, hw, he⟩
        have hwz : w = z := congrArg Seg.start he
        rw [← hwz]
        exact (eachDay_mem h w).mp hw
      · intro hz
        exact ⟨z, (eachDay_mem h z).mpr hz, rfl⟩
    · rw [List.length_map, eachDay_length h]
      rfl
    · refine List.Pairwise.map _ ?_ (eachDay_pairwise s e)
      intro a b hab
      exact hab
  · constructor
    · decide
    · decide

/-- Witness for C5 at the concrete range 2024-03-01 .. 2024-03-05. -/
theorem C5_day_witness :
    (calculateSegments (mkDate 2024 3 1) (mkDate 2024 3 5) .day).count =
      differenceInDays (mkDate 2024 3 5) (mkDate 2024 3 1) + 1 :=
  (C5_day.1 (mkDate 2024 3 1) (mkDate 2024 3 5) (by decide)).1

/-- C6: for every valid range, the `weekend` interval yields exactly the
Saturdays and Sundays of the range, in order, each as a one-day segment,
with count the number of weekend days; and the concrete example
2024-01-01 (Mon) .. 2024-01-07 (Sun) yields exactly the two segments
Sat 01-06 and Sun 01-07 with count 2. -/
theorem C6_weekend :
    (∀ (s e : Date), dle s e →
      (∀ g ∈ (calculateSegments s e .weekend).segments.getD [],
        g.start = g.stop) ∧
      (∀ z : Date,
        Seg.mk z z ∈ (calculateSegments s e .weekend).segments.getD [] ↔
          dle s z ∧ dle z e ∧ (dow z = 0 ∨ dow z = 6)) ∧
      List.Pairwise (fun a b => dlt a.start b.start)
        ((calculateSegments s e .weekend).segments.getD []) ∧
      (calculateSegments s e .weekend).count =
        (((calculateSegments s e .weekend).segments.getD []).length : Int)) ∧
    ((calculateSegments (mkDate 2024 1 1) (mkDate 2024 1 7) .weekend).count = 2 ∧
      (calculateSegments (mkDate 2024 1 1) (mkDate 2024 1 7) .weekend).segments =
        some [Seg.mk (mkDate 2024 1 6) (mkDate 2024 1 6),
          Seg.mk (mkDate 2024 1 7) (mkDate 2024 1 7)]) := by
  constructor
  · intro s e h
    have h' : ¬ dlt e s := not_dlt_of_dle h
    have hseg : calculateSegments s e .weekend =
        { count :=
            ((((eachDayOfInterval s e).filter isWeekendB).map
              (fun z => Seg.mk z z)).length : Int),
          segments :=
            some (((eachDayOfInterval s e).filter isWeekendB).map
              (fun z => Seg.mk z z)),
          error :=
            if ((((eachDayOfInterval s e).filter isWeekendB).map
                (fun z => Seg.mk z z)).length : Int) = 0 then
              some ("No valid " ++ intervalName .weekend ++
                " segments found in the selected range")
            else none } := by
      unfold calculateSegments
      rw [if_neg h']
    rw [hseg]
    simp only [Option.getD_some]
    refine ⟨?_, ?_, ?_, by trivial⟩
    · intro g hg
      simp only [List.mem_map] at hg
      obtain ⟨z, _, rfl⟩ := hg
      rfl
    · intro z
      simp only [List.mem_map, List.mem_filter]
      constructor
      · rintro ⟨w, ⟨hw, hwk⟩, he⟩
        have hwz : w = z := congrArg Seg.start he
        rw [← hwz]
        have hm := (eachDay_mem h w).mp hw
        refine ⟨hm.1, hm.2, ?_⟩
        simpa [isWeekendB] using hwk
      · rintro ⟨h1, h2, h3⟩
        refine ⟨z, ⟨(eachDay_mem h z).mpr ⟨h1, h2⟩, ?_⟩, rfl⟩
        simpa [isWeekendB] using h3
    · refine List.Pairwise.map _ ?_
        (List.Pairwise.sublist (List.filter_sublist _) (eachDay_pairwise s e))
      intro a b hab
      exact hab
  · exact ⟨by decide, by decide⟩

/-- Witness for C6 at the concrete range 2024-01-01 .. 2024-01-07. -/
theorem C6_weekend_witness :
    (calculateSegments (mkDate 2024 1 1) (mkDate 2024 1 7) .weekend).count =
      (((calculateSegments (mkDate 2024 1 1) (mkDate 2024 1 7)
        .weekend).segments.getD []).length : Int) :=
  ((C6_weekend.1 (mkDate 2024 1 1) (mkDate 2024 1 7) (by decide)).2.2).2

/-- C2: for every valid range, the `week` interval produces one segment per
Monday-started week intersecting the range; each segment starts on that
Monday and stops 4 days later (Friday), clipped to the range end; segments
are ordered and `count` is the number of segments. -/
theorem C2_week :
    (∀ (s e : Date), dle s e →
      (∀ g ∈ (calculateSegments s e .week).segments.getD [],
        dow g.start = 1 ∧ dle g.stop e ∧
        g.stop = (if dlt e (addDays g.start 4) then e
          else addDays g.start 4)) ∧
      (∀ w : Date,
        (w ∈ ((calculateSegments s e .week).segments.getD []).map Seg.start ↔
          dow w = 1 ∧ dle w e ∧ dle s (addDays w 6))) ∧
      List.Pairwise (fun a b => dlt a.start b.start)
        ((calculateSegments s e .week).segments.getD []) ∧
      (calculateSegments s e .week).count =
        (((calculateSegments s e .week).segments.getD []).length : Int)) ∧
    ((calculateSegments (mkDate 2024 1 1) (mkDate 2024 1 19) .week).count = 3 ∧
      (calculateSegments (mkDate 2024 1 1) (mkDate 2024 1 19) .week).segments =
        some [Seg.mk (mkDate 2024 1 1) (mkDate 2024 1 5),
          Seg.mk (mkDate 2024 1 8) (mkDate 2024 1 12),
          Seg.mk (mkDate 2024 1 15) (mkDate 2024 1 19)]) := by
  constructor
  · intro s e h
    have h' : ¬ dlt e s := not_dlt_of_dle h
    have hseg : calculateSegments s e .week =
        { count :=
            (((eachWeekOfInterval s e).map (fun w =>
              Seg.mk w (if dlt e (addDays w 4) then e
                else addDays w 4))).length : Int),
          segments :=
            some ((eachWeekOfInterval s e).map (fun w =>
              Seg.mk w (if dlt e (addDays w 4) then e
                else addDays w 4))),
          error :=
            if (((eachWeekOfInterval s e).map (fun w =>
                Seg.mk w (if dlt e (addDays w 4) then e
                  else addDays w 4))).length : Int) = 0 then
              some ("No valid " ++ intervalName .week ++
                " segments found in the selected range")
            else none } := by
      unfold calculateSegments
      rw [if_neg h']
    rw [hseg]
    simp only [Option.getD_some]
    refine ⟨?_, ?_, ?_, by trivial⟩
    · intro g hg
      simp only [List.mem_map] at hg
      obtain ⟨w, hw, rfl⟩ := hg
      have hmem := (eachWeek_mem h w).mp hw
      refine ⟨?_, ?_, rfl⟩
      · show dow w = 1
        unfold dow
        omega
      · show dle (if dlt e (addDays w 4) then e else addDays w 4) e
        split_ifs with hlt
        · exact dle_refl e
        · exact not_dlt_iff.mp hlt
    · intro w
      simp only [List.map_map, List.mem_map, Function.comp]
      constructor
      · rintro ⟨v, hv, rfl⟩
        have hmem := (eachWeek_mem h v).mp hv
        have ha := toDays_addDays v 6
        refine ⟨by unfold dow; omega, by rw [toDays_le_iff]; omega,
          by rw [toDays_le_iff]; omega⟩
      · rintro ⟨h1, h2, h3⟩
        refine ⟨w, ?_, rfl⟩
        rw [eachWeek_mem h w]
        unfold dow at h1
        rw [toDays_le_iff] at h2
        rw [toDays_le_iff] at h3
        have ha := toDays_addDays w 6
        refine ⟨by omega, by omega, by omega⟩
    · refine List.Pairwise.map _ ?_ (eachWeek_pairwise s e)
      intro a b hab
      exact hab
  · exact ⟨by decide, by decide⟩

/-- Witness for C2 at the concrete range 2024-01-01 .. 2024-01-19. -/
theorem C2_week_witness :
    (calculateSegments (mkDate 2024 1 1) (mkDate 2024 1 19) .week).count =
      (((calculateSegments (mkDate 2024 1 1) (mkDate 2024 1 19)
        .week).segments.getD []).length : Int) :=
  ((C2_week.1 (mkDate 2024 1 1) (mkDate 2024 1 19) (by decide)).2.2).2

/-- C7: for every valid range and interval type, if the computed count is
zero the picker engine reports the error "No valid <interval> segments
found in the selected range" together with an empty (but non-null) segment
list; the zero count is returned, not thrown. -/
theorem C7_zero_count (s e : Date) (i : IntervalType) (h : dle s e)
    (hc : (calculateSegments s e i).count = 0) :
    (calculateSegments s e i).error =
      some ("No valid " ++ intervalName i ++
        " segments found in the selected range") ∧
    (calculateSegments s e i).segments = some [] ∧
    (calculateSegments s e i).count = 0 := by
  have h' : ¬ dlt e s := not_dlt_of_dle h
  cases i
  case day =>
    exfalso
    have hseg : (calculateSegments s e .day).count =
        differenceInDays e s + 1 := by
      unfold calculateSegments
      rw [if_neg h']
    have hd : 0 ≤ differenceInDays e s := by
      have := toDays_le_of_dle h
      unfold differenceInDays
      omega
    omega
  case week =>
    exfalso
    have hseg : (calculateSegments s e .week).count =
        (((eachWeekOfInterval s e).map (fun w =>
          Seg.mk w (if dlt e (addDays w 4) then e
            else addDays w 4))).length : Int) := by
      unfold calculateSegments
      rw [if_neg h']
    have hpos := eachWeek_length_pos h
    rw [hseg, List.length_map] at hc
    omega
  case weekend =>
    have hlist : (((eachDayOfInterval s e).filter isWeekendB).map
        (fun z => Seg.mk z z)) = [] := by
      have hseg : (calculateSegments s e .weekend).count =
          ((((eachDayOfInterval s e).filter isWeekendB).map
            (fun z => Seg.mk z z)).length : Int) := by
        unfold calculateSegments
        rw [if_neg h']
      rw [hseg] at hc
      have : (((eachDayOfInterval s e).filter isWeekendB).map
          (fun z => Seg.mk z z)).length = 0 := by omega
      exact List.length_eq_zero.mp this
    have hres : calculateSegments s e .weekend =
        { count := 0, segments := some [],
          error := some ("No valid " ++ intervalName .weekend ++
            " segments found in the selected range") } := by
      unfold calculateSegments
      rw [if_neg h']
      simp only [hlist]
      rfl
    rw [hres]
    exact ⟨rfl, rfl, rfl⟩
  case month =>
    exfalso
    have hseg : (calculateSegments s e .month).count =
        (if differenceInMonths e s + 1 ≤ 0 then (1 : Int)
          else differenceInMonths e s + 1) := by
      unfold calculateSegments
      rw [if_neg h']
      dsimp only
      split_ifs <;> rfl
    rw [hseg] at hc
    split_ifs at hc <;> omega

/-- Witness for C7: a single Monday contains no weekend day, so the
weekend interval yields a zero count with the informational error. -/
theorem C7_zero_count_witness :
    (calculateSegments (mkDate 2024 1 1) (mkDate 2024 1 1) .weekend).error =
      some ("No valid " ++ intervalName .weekend ++
        " segments found in the selected range") :=
  (C7_zero_count (mkDate 2024 1 1) (mkDate 2024 1 1) .weekend
    (by decide) (by decide)).1

theorem weekSegs_pairwise {s e : Date} (h : dle s e) :
    List.Pairwise (fun a b => dlt a.stop b.start)
      ((eachWeekOfInterval s e).map (fun w =>
        Seg.mk w (if dlt e (addDays w 4) then e else addDays w 4))) := by
  have hW0 := startOfWeekMon_toDays s
  have hW1 := startOfWeekMon_toDays e
  have hse := toDays_le_of_dle h
  unfold eachWeekOfInterval
  rw [if_pos h]
  rw [List.pairwise_iff_getElem]
  intro a b ha hb hab
  simp only [List.length_map, List.length_range] at ha hb
  simp only [List.getElem_map, List.getElem_range]
  show dlt (if dlt e (addDays (addDays (startOfWeekMon s) (7 * a)) 4) then e
      else addDays (addDays (startOfWeekMon s) (7 * a)) 4)
    (addDays (startOfWeekMon s) (7 * b))
  have ca := toDays_addDays (startOfWeekMon s) (7 * a)
  have cb := toDays_addDays (startOfWeekMon s) (7 * b)
  have ca4 := toDays_addDays (addDays (startOfWeekMon s) (7 * a)) 4
  have hbn : (b : Int) ≤ (toDays (startOfWeekMon e) -
      toDays (startOfWeekMon s)) / 7 := by omega
  split_ifs with hcl
  · rw [toDays_lt_iff] at hcl ⊢
    omega
  · rw [toDays_lt_iff]
    omega

/-- C4 (amended): for every valid range and interval type, every produced
segment stops no later than `range.end`; for the `day`, `weekend` and
`month` intervals every segment also starts no earlier than `range.start`
(the `week` interval may start a segment on the Monday before
`range.start`); and the segments are chronologically ordered and pairwise
non-overlapping. -/
theorem C4_segment_bounds (s e : Date) (i : IntervalType) (h : dle s e) :
    (∀ g ∈ (calculateSegments s e i).segments.getD [], dle g.stop e) ∧
    (i ≠ .week →
      ∀ g ∈ (calculateSegments s e i).segments.getD [], dle s g.start) ∧
    List.Pairwise (fun a b => dlt a.stop b.start)
      ((calculateSegments s e i).segments.getD []) := by
  have h' : ¬ dlt e s := not_dlt_of_dle h
  cases i
  case day =>
    have hseg : (calculateSegments s e .day).segments =
        some ((eachDayOfInterval s e).map (fun z => Seg.mk z z)) := by
      unfold calculateSegments
      rw [if_neg h']
    rw [hseg]
    simp only [Option.getD_some]
    refine ⟨?_, ?_, ?_⟩
    · intro g hg
      simp only [List.mem_map] at hg
      obtain ⟨z, hz, rfl⟩ := hg
      exact ((eachDay_mem h z).mp hz).2
    · intro _ g hg
      simp only [List.mem_map] at hg
      obtain ⟨z, hz, rfl⟩ := hg
      exact ((eachDay_mem h z).mp hz).1
    · refine List.Pairwise.map _ ?_ (eachDay_pairwise s e)
      intro a b hab
      exact hab
  case weekend =>
    have hseg : (calculateSegments s e .weekend).segments =
        some (((eachDayOfInterval s e).filter isWeekendB).map
          (fun z => Seg.mk z z)) := by
      unfold calculateSegments
      rw [if_neg h']
    rw [hseg]
    simp only [Option.getD_some]
    refine ⟨?_, ?_, ?_⟩
    · intro g hg
      simp only [List.mem_map, List.mem_filter] at hg
      obtain ⟨z, ⟨hz, _⟩, rfl⟩ := hg
      exact ((eachDay_mem h z).mp hz).2
    · intro _ g hg
      simp only [List.mem_map, List.mem_filter] at hg
      obtain ⟨z, ⟨hz, _⟩, rfl⟩ := hg
      exact ((eachDay_mem h z).mp hz).1
    · refine List.Pairwise.map _ ?_
        (List.Pairwise.sublist (List.filter_sublist _) (eachDay_pairwise s e))
      intro a b hab
      exact hab
  case week =>
    have hseg : (calculateSegments s e .week).segments =
        some ((eachWeekOfInterval s e).map (fun w =>
          Seg.mk w (if dlt e (addDays w 4) then e
            else addDays w 4))) := by
      unfold calculateSegments
      rw [if_neg h']
    rw [hseg]
    simp only [Option.getD_some]
    refine ⟨?_, fun hne => absurd rfl hne, weekSegs_pairwise h⟩
    intro g hg
    simp only [List.mem_map] at hg
    obtain ⟨w, hw, rfl⟩ := hg
    show dle (if dlt e (addDays w 4) then e else addDays w 4) e
    split_ifs with hlt
    · exact dle_refl e
    · exact not_dlt_iff.mp hlt
  case month =>
    by_cases hc : differenceInMonths e s + 1 ≤ 0
    · have hseg : (calculateSegments s e .month).segments =
          some [Seg.mk s e] := by
        unfold calculateSegments
        rw [if_neg h']
        simp only [if_pos hc]
      rw [hseg]
      simp only [Option.getD_some]
      refine ⟨?_, ?_, ?_⟩
      · intro g hg
        simp only [List.mem_singleton] at hg
        subst hg
        exact dle_refl e
      · intro _ g hg
        simp only [List.mem_singleton] at hg
        subst hg
        exact dle_refl s
      · simp
    · have hseg : (calculateSegments s e .month).segments =
          some (monthSegments s e (differenceInMonths e s + 1).toNat) := by
        unfold calculateSegments
        rw [if_neg h']
        simp only [if_neg hc]
      rw [hseg]
      simp only [Option.getD_some]
      have hb := @monthSegments_mem s e (differenceInMonths e s + 1)
        (by omega)
        (by have := dim_le_cal h; omega)
      exact ⟨fun g hg => (hb g hg).2, fun _ g hg => (hb g hg).1,
        monthSegments_pairwise s e _⟩

/-- Witness for C4 (amended): the single week segment of the range
2024-01-02 .. 2024-01-05 stops no later than the range end. -/
theorem C4_segment_bounds_witness :
    dle (Seg.mk (mkDate 2024 1 1) (mkDate 2024 1 5)).stop
      (mkDate 2024 1 5) :=
  (C4_segment_bounds (mkDate 2024 1 2) (mkDate 2024 1 5) .week
    (by decide)).1 (Seg.mk (mkDate 2024 1 1) (mkDate 2024 1 5)) (by decide)

/-- Counterexample to C4 as stated: over the valid range
2024-01-02 (Tue) .. 2024-01-05 (Fri), the `week` interval produces the
single segment [2024-01-01 .. 2024-01-05], whose start 2024-01-01 is
strictly before the range start 2024-01-02, so a week segment is not a
sub-range of the input range. -/
theorem C4_counterexample :
    (calculateSegments (mkDate 2024 1 2) (mkDate 2024 1 5) .week).segments =
      some [Seg.mk (mkDate 2024 1 1) (mkDate 2024 1 5)] ∧
    dle (mkDate 2024 1 2) (mkDate 2024 1 5) ∧
    dlt (mkDate 2024 1 1) (mkDate 2024 1 2) := by
  refine ⟨by decide, by decide, by decide⟩

/-- C1: evaluation of the engine at the month example of the spec.
The spec claims start = 2023-12-15, end = 2024-02-10 yields 3 segments
[12-15..12-31], [01-01..01-31], [02-01..02-10] with count 3 (one segment
per calendar month touched). The code computes
`count = differenceInMonths(end, start) + 1`, and date-fns
`differenceInMonths` counts FULL months (here 1, since Jan 15 .. Feb 10
is not a full month), so the engine returns count 2 and the last segment
[2024-01-01 .. 2024-02-10] spans two calendar months, contradicting the
code comment "Each month is a segment". -/
theorem C1_month_code_eval :
    calculateSegments (mkDate 2023 12 15) (mkDate 2024 2 10) .month =
      { count := 2,
        segments := some
          [Seg.mk (mkDate 2023 12 15) (mkDate 2023 12 31),
           Seg.mk (mkDate 2024 1 1) (mkDate 2024 2 10)],
        error := none } ∧
    differenceInMonths (mkDate 2024 2 10) (mkDate 2023 12 15) = 1 := by
  refine ⟨by decide, by decide⟩

/-- C10: the two duplicated copies of the segmentation engine — the
standalone picker `calculateSegments` and the form `calculateDateSegments`
— produce the same segment list and the same count for every pair of
dates and every interval type. -/
theorem C10_copies_equivalent (s e : Date) (i : IntervalType) :
    (calculateDateSegments s e i).1 = (calculateSegments s e i).segments ∧
    (calculateDateSegments s e i).2 = (calculateSegments s e i).count := by
  by_cases h : dlt e s
  · unfold calculateSegments calculateDateSegments
    rw [if_pos h, if_pos h]
    exact ⟨rfl, rfl⟩
  · cases i with
    | day =>
      unfold calculateSegments calculateDateSegments
      rw [if_neg h, if_neg h]
      exact ⟨rfl, rfl⟩
    | week =>
      unfold calculateSegments calculateDateSegments
      rw [if_neg h, if_neg h]
      exact ⟨rfl, rfl⟩
    | weekend =>
      unfold calculateSegments calculateDateSegments
      rw [if_neg h, if_neg h]
      exact ⟨rfl, rfl⟩
    | month =>
      unfold calculateSegments calculateDateSegments
      rw [if_neg h, if_neg h]
      by_cases hc : differenceInMonths e s + 1 ≤ 0
      · simp only [if_pos hc]
        exact ⟨trivial, trivial⟩
      · simp only [if_neg hc]
        exact ⟨trivial, trivial⟩

/-! ### Preview rendering (`formatPreviewItem` of the picker) -/

/-- The month-name table of `formatPreviewItem`. -/
def monthNames : List String :=
  ["Jan", "Feb", "Mar", "Apr", "May", "Jun",
   "Jul", "Aug", "Sep", "Oct", "Nov", "Dec"]

/-- The interval-type switch of `formatPreviewItem` (lines 210-230),
factored out: the literal preview text of one segment. JS `getMonth()` is
the 0-based month, hence the `m - 1` index. -/
def formatLiteral (it : IntervalType) (g : Seg) : String :=
  match it with
  | .day =>
    "Daily rate - " ++ monthNames.getD (g.start.m - 1).toNat "" ++ " " ++
      toString g.start.d
  | .week =>
    "Weekly rate - " ++ monthNames.getD (g.start.m - 1).toNat "" ++ " " ++
      toString g.start.d ++ "-" ++
      (if ¬ g.stop.m = g.start.m then
        monthNames.getD (g.stop.m - 1).toNat "" ++ " "
      else "") ++ toString g.stop.d
  | .weekend =>
    "Weekend - " ++ (if dow g.start = 0 then "Sun" else "Sat") ++ ", " ++
      monthNames.getD (g.start.m - 1).toNat "" ++ " " ++ toString g.start.d
  | .month =>
    if g.start.m = g.stop.m then
      "Monthly rate - " ++ monthNames.getD (g.start.m - 1).toNat "" ++ " " ++
        toString g.start.y
    else
      "Monthly rate - " ++ monthNames.getD (g.start.m - 1).toNat "" ++ "-" ++
        monthNames.getD (g.stop.m - 1).toNat ""

/-- Transcription of `formatPreviewItem` (lines 199-231): indices at least
3 render the synthetic "+ N more" line when more than 4 segments exist,
an empty string when not, and the literal text otherwise. -/
def formatPreviewItem (segmentCount : Int) (it : IntervalType) (g : Seg)
    (index : Nat) : String :=
  if 3 ≤ index ∧ 4 < segmentCount then
    "+ " ++ toString (segmentCount - 3) ++ " more " ++ intervalName it ++
      "(s)..."
  else if 3 ≤ index then ""
  else formatLiteral it g

/-- The synthetic "+ N more" line. -/
def moreLine (segmentCount : Int) (it : IntervalType) : String :=
  "+ " ++ toString (segmentCount - 3) ++ " more " ++ intervalName it ++
    "(s)..."

/-- The rendered preview list (lines 276-288): one line per segment via
`formatPreviewItem`, falsy (empty) strings skipped. -/
def previewLines (segmentCount : Int) (it : IntervalType)
    (segs : List Seg) : List String :=
  (segs.mapIdx (fun i g => formatPreviewItem segmentCount it g i)).filter
    (fun t => !(t == ""))

theorem mapIdx_const {γ : Type} (G : Nat → Seg → γ) (c : γ) (l : List Seg) :
    ∀ k : Nat, (∀ (i : Nat) (g : Seg), G (i + k) g = c) →
      l.mapIdx (fun i g => G (i + k) g) = List.replicate l.length c := by
  induction l with
  | nil => intro k h; simp
  | cons a tl ih =>
    intro k h
    simp only [List.mapIdx_cons, List.length_cons, List.replicate_succ]
    have hfun : (fun (i : Nat) (g : Seg) => G (i + 1 + k) g) =
        (fun (i : Nat) (g : Seg) => G (i + (k + 1)) g) := by
      funext i g
      rw [show i + 1 + k = i + (k + 1) by omega]
    have htail := ih (k + 1) (fun i g => by
      rw [show i + (k + 1) = i + 1 + k by omega]
      exact h (i + 1) g)
    rw [hfun, htail, h 0 a]

theorem filter_replicate_of_true {p : String → Bool} {c : String}
    (h : p c = true) (n : Nat) :
    (List.replicate n c).filter p = List.replicate n c := by
  induction n with
  | zero => simp
  | succ k ih =>
    simp only [List.replicate_succ, List.filter_cons, h, if_true, ih]

theorem moreLine_true (segmentCount : Int) (it : IntervalType) :
    (!(moreLine segmentCount it == "")) = true := by
  have hne : moreLine segmentCount it ≠ "" := by
    intro hcontra
    unfold moreLine at hcontra
    have hlen := congrArg String.length hcontra
    rw [String.length_append, String.length_append, String.length_append,
      String.length_append] at hlen
    have h2 : String.length "+ " = 2 := rfl
    have h0 : String.length "" = 0 := rfl
    omega
  simp [hne]

/-- Counterexample to C8 as stated: over 2024-03-01 .. 2024-03-05 (five
day segments), the rendered preview repeats the synthetic
"+ 2 more day(s)..." line twice instead of once; and over
2024-03-01 .. 2024-03-04 (exactly four segments) only the first three
lines render, not all four. -/
theorem C8_counterexample :
    previewLines 5 .day
      ((calculateSegments (mkDate 2024 3 1) (mkDate 2024 3 5)
        .day).segments.getD []) =
      ["Daily rate - Mar 1", "Daily rate - Mar 2", "Daily rate - Mar 3",
        "+ 2 more day(s)...", "+ 2 more day(s)..."] ∧
    previewLines 4 .day
      ((calculateSegments (mkDate 2024 3 1) (mkDate 2024 3 4)
        .day).segments.getD []) =
      ["Daily rate - Mar 1", "Daily rate - Mar 2", "Daily rate - Mar 3"] := by
  refine ⟨by decide, by decide⟩

/-- C8 (amended): indices below 3 always render the literal line; when
more than 4 segments exist, every index from 3 on renders the same
synthetic "+ {count-3} more {interval}(s)..." line, so the preview is the
(filtered) first three literal lines followed by `count - 3` copies of
the synthetic line; when exactly 4 segments exist, the fourth renders the
empty string and is filtered out, so only the first three lines appear. -/
theorem C8_preview_amended (count : Int) (it : IntervalType)
    (segs : List Seg) (h : count = segs.length) :
    (4 < count →
      previewLines count it segs =
        ((segs.take 3).mapIdx
          (fun i g => formatPreviewItem count it g i)).filter
          (fun t => !(t == "")) ++
        List.replicate (segs.length - 3) (moreLine count it)) ∧
    (count = 4 →
      previewLines count it segs =
        ((segs.take 3).mapIdx
          (fun i g => formatPreviewItem count it g i)).filter
          (fun t => !(t == ""))) ∧
    (∀ (i : Nat) (g : Seg), i < 3 →
      formatPreviewItem count it g i = formatLiteral it g) := by
  refine ⟨?_, ?_, ?_⟩
  · intro hbig
    match segs, h with
    | a :: b :: c :: rest, h =>
      have hlen : (5 : Int) ≤ (a :: b :: c :: rest).length := by omega
      simp only [List.length_cons] at hlen
      unfold previewLines
      simp only [List.mapIdx_cons]
      have hshift : rest.mapIdx
          (fun i g => formatPreviewItem count it g (i + 1 + 1 + 1)) =
          List.replicate rest.length (moreLine count it) := by
        have hfun : (fun (i : Nat) (g : Seg) =>
            formatPreviewItem count it g (i + 1 + 1 + 1)) =
            (fun (i : Nat) (g : Seg) =>
              formatPreviewItem count it g (i + 3)) := by
          funext i g
          rw [show i + 1 + 1 + 1 = i + 3 by omega]
        rw [hfun]
        exact mapIdx_const (fun i g => formatPreviewItem count it g i)
          (moreLine count it) rest 3
          (fun i g => by
            dsimp only [formatPreviewItem, moreLine]
            rw [if_pos ⟨by omega, hbig⟩])
      rw [hshift]
      rw [show formatPreviewItem count it a 0 ::
          formatPreviewItem count it b (0 + 1) ::
          formatPreviewItem count it c (0 + 1 + 1) ::
          List.replicate rest.length (moreLine count it) =
          [formatPreviewItem count it a 0,
            formatPreviewItem count it b (0 + 1),
            formatPreviewItem count it c (0 + 1 + 1)] ++
          List.replicate rest.length (moreLine count it) from rfl]
      rw [List.filter_append,
        filter_replicate_of_true (moreLine_true count it)]
      simp only [List.take_succ_cons, List.take_zero, List.mapIdx_cons,
        List.mapIdx_nil, List.length_cons]
      rw [show rest.length + 1 + 1 + 1 - 3 = rest.length by omega]
    | [], h => simp at h; omega
    | [a], h => simp at h; omega
    | [a, b], h => simp at h; omega
  · intro h4
    match segs, h with
    | [a, b, c, d], h =>
      unfold previewLines
      simp only [List.mapIdx_cons, List.mapIdx_nil]
      have hd : formatPreviewItem count it d (0 + 1 + 1 + 1) = "" := by
        dsimp only [formatPreviewItem]
        rw [if_neg (by omega), if_pos (by omega)]
      rw [hd]
      rw [show formatPreviewItem count it a 0 ::
          formatPreviewItem count it b (0 + 1) ::
          formatPreviewItem count it c (0 + 1 + 1) :: [""] =
          [formatPreviewItem count it a 0,
            formatPreviewItem count it b (0 + 1),
            formatPreviewItem count it c (0 + 1 + 1)] ++ [""] from rfl]
      rw [List.filter_append]
      simp only [List.take_succ_cons, List.take_zero, List.mapIdx_cons,
        List.mapIdx_nil]
      simp
    | [], h => simp at h; omega
    | [a], h => simp at h; omega
    | [a, b], h => simp at h; omega
    | [a, b, c], h => simp at h; omega
    | a :: b :: c :: d :: x :: rest, h =>
      exfalso
      simp only [List.length_cons] at h
      omega
  · intro i g hi
    dsimp only [formatPreviewItem]
    rw [if_neg (by omega), if_neg (by omega)]

/-- Witness for C8 (amended) at the five-segment day example. -/
theorem C8_preview_amended_witness :
    previewLines 5 IntervalType.day
      ((calculateSegments (mkDate 2024 3 1) (mkDate 2024 3 5)
        .day).segments.getD []) =
      ((((calculateSegments (mkDate 2024 3 1) (mkDate 2024 3 5)
        .day).segments.getD []).take 3).mapIdx
          (fun i g => formatPreviewItem 5 IntervalType.day g i)).filter
          (fun t => !(t == "")) ++
        List.replicate
          (((calculateSegments (mkDate 2024 3 1) (mkDate 2024 3 5)
            .day).segments.getD []).length - 3)
          (moreLine 5 IntervalType.day) :=
  (C8_preview_amended 5 IntervalType.day
    ((calculateSegments (mkDate 2024 3 1) (mkDate 2024 3 5)
      .day).segments.getD []) (by decide)).1 (by norm_num)

end Invoices
